import Mathlib

/-!
Verification of the rust-nntp protocol client (files `src/nntp.rs`, `src/errors.rs`).

Shallow embedding conventions:
* Bytes read from the TCP stream are `Nat` values `< 256`; decoded Rust
  `String`s are represented by their sequences of Unicode code points
  (`List Nat`).
* The stream is a list of read outcomes (`StreamEvent`); a successful
  one-byte `read` yields `readByte b`, a failing read yields `readErr k`
  with the `std::io::ErrorKind` of the error.  Reading past the end of the
  event list models the peer having closed the connection prematurely,
  which the standard library surfaces as an `UnexpectedEof`-kind error.
* Writes are modelled by an explicit `Except IoErrorKind Unit` outcome
  supplied by the environment; the `post` model additionally returns the
  list of byte strings it wrote, so "nothing was written" is expressible.
* Rust panics (out-of-bounds indexing, `unwrap` of `None`/`Err`) are
  modelled by `Option.none` in the functions that can panic.
-/

/-- The subset of `std::io::ErrorKind` values relevant to the client
(`errors.rs` matches nine "network" kinds and treats everything else
uniformly; a few representative non-network kinds are included). -/
inductive IoErrorKind where
  | ConnectionRefused
  | ConnectionReset
  | ConnectionAborted
  | BrokenPipe
  | NotConnected
  | TimedOut
  | WouldBlock
  | Interrupted
  | UnexpectedEof
  | NotFound
  | PermissionDenied
  | InvalidInput
  | InvalidData
  | WriteZero
  | OutOfMemory
  | Other
deriving DecidableEq, Repr

/-- Modelled from the spec: the module `codes` (`codes.rs`, declared by
`pub mod codes;` in `nntp.rs`) is not under `src/`; the `ResponseCode`
enum is reconstructed from the spec's §3 status-code table, with the
variant names used throughout `nntp.rs`. -/
inductive ResponseCode where
  | HelpTextFollows
  | CapabilitiesListFollows
  | ServerDateTime
  | ServiceAvailablePostingAllowed
  | ServiceAvailablePostingProhibited
  | ConnectionClosing
  | ArticleNumbersFollows
  | InformationFollows
  | ArticleFollows
  | ArticleHeadersFollows
  | ArticleBodyFollows
  | ArticleExistsAndSelected
  | ListOfNewArticlesFollows
  | ListOfNewNewsgroupsFollows
  | ArticleReceivedOK
  | SendArticleToPost
  | NoArticleWithThatNumber
deriving DecidableEq, Repr

/-- Modelled from the spec: the integer value carried by each
`ResponseCode` variant (the `.into()` conversion used by
`read_response`), per the spec's §3 table. -/
def ResponseCode.val : ResponseCode → Int
  | .HelpTextFollows => 100
  | .CapabilitiesListFollows => 101
  | .ServerDateTime => 111
  | .ServiceAvailablePostingAllowed => 200
  | .ServiceAvailablePostingProhibited => 201
  | .ConnectionClosing => 205
  | .ArticleNumbersFollows => 211
  | .InformationFollows => 215
  | .ArticleFollows => 220
  | .ArticleHeadersFollows => 221
  | .ArticleBodyFollows => 222
  | .ArticleExistsAndSelected => 223
  | .ListOfNewArticlesFollows => 230
  | .ListOfNewNewsgroupsFollows => 231
  | .ArticleReceivedOK => 240
  | .SendArticleToPost => 340
  | .NoArticleWithThatNumber => 423

/-- The `NNTPError` enum of `errors.rs`.  Variants carry the data the
claims depend on; `io::Error` payloads are represented by their kind.
The `src/` copy of `errors.rs` declares the mismatch variant as
`ResponseCode { expeted: isize, received: isize }` (note the typo), while
`nntp.rs` constructs and matches it with an `expected` field holding a
`codes::ResponseCode`; we follow `nntp.rs`, whose behaviour the claims
cite. -/
inductive NNTPError where
  | Unknown
  | Io (kind : IoErrorKind)
  | ArticleUnavailable
  | FailedReadingArticle (kind : IoErrorKind)
  | FailedReadingResponse (kind : IoErrorKind)
  | FailedWritingRequest (kind : IoErrorKind)
  | FailedConnecting (expected : List Nat) (error : NNTPError)
  | DecodingError
  | InvalidResponse (response : List Nat)
  | InvalidMessage (message : List Nat) (reason : List Nat)
  | ResponseCode (expected : ResponseCode) (received : Int)
deriving DecidableEq, Repr

/-- `errors.rs::check_io_network_error`: the nine `ErrorKind`s classified
as network errors. -/
def check_io_network_error (err : IoErrorKind) : Bool :=
  match err with
  | .ConnectionRefused
  | .ConnectionReset
  | .ConnectionAborted
  | .BrokenPipe
  | .NotConnected
  | .TimedOut
  | .WouldBlock
  | .Interrupted
  | .UnexpectedEof => true
  | _ => false

/-- `errors.rs::check_network_error`: only `Io`-wrapped errors of a
network kind count as network errors. -/
def check_network_error (error : NNTPError) : Bool :=
  match error with
  | .Io err => check_io_network_error err
  | _ => false

/-- `errors.rs::response_error_or_network`. -/
def response_error_or_network (error : IoErrorKind) : NNTPError :=
  if check_io_network_error error then .Io error
  else .FailedReadingResponse error

/-- `errors.rs::write_error_or_network`. -/
def write_error_or_network (error : IoErrorKind) : NNTPError :=
  if check_io_network_error error then .Io error
  else .FailedWritingRequest error

/-- `errors.rs::article_error_or_network`. -/
def article_error_or_network (error : IoErrorKind) : NNTPError :=
  if check_io_network_error error then .Io error
  else .FailedReadingArticle error

/-! ### Text decoding (`encoding_rs::UTF_8.decode` with `WINDOWS_1252` fallback) -/

/-- A Unicode scalar value (what a Rust `char` can hold). -/
abbrev UnicodeScalar (c : Nat) : Prop :=
  c < 1114112 ∧ ¬(55296 ≤ c ∧ c ≤ 57343)

/-- UTF-8 encoding of one Unicode scalar value. -/
def utf8EncodeChar (c : Nat) : List Nat :=
  if c < 128 then [c]
  else if c < 2048 then [192 + c / 64, 128 + c % 64]
  else if c < 65536 then [224 + c / 4096, 128 + c / 64 % 64, 128 + c % 64]
  else [240 + c / 262144, 128 + c / 4096 % 64, 128 + c / 64 % 64, 128 + c % 64]

/-- Strict UTF-8 decoding of a byte sequence into code points; `none`
when the bytes are not well-formed UTF-8 (the `had_errors` outcome of
`encoding_rs::UTF_8.decode`). -/
def utf8Decode : List Nat → Option (List Nat)
  | [] => some []
  | b1 :: rest =>
    if b1 < 128 then
      (utf8Decode rest).map (fun cs => b1 :: cs)
    else
      match rest with
      | [] => none
      | b2 :: rest2 =>
        if 194 ≤ b1 ∧ b1 ≤ 223 then
          if 128 ≤ b2 ∧ b2 ≤ 191 then
            (utf8Decode rest2).map (fun cs => ((b1 - 192) * 64 + (b2 - 128)) :: cs)
          else none
        else
          match rest2 with
          | [] => none
          | b3 :: rest3 =>
            if 224 ≤ b1 ∧ b1 ≤ 239 then
              if 128 ≤ b2 ∧ b2 ≤ 191 ∧ (b1 = 224 → 160 ≤ b2) ∧ (b1 = 237 → b2 ≤ 159) ∧
                  128 ≤ b3 ∧ b3 ≤ 191 then
                (utf8Decode rest3).map
                  (fun cs => ((b1 - 224) * 4096 + (b2 - 128) * 64 + (b3 - 128)) :: cs)
              else none
            else
              match rest3 with
              | [] => none
              | b4 :: rest4 =>
                if 240 ≤ b1 ∧ b1 ≤ 244 then
                  if 128 ≤ b2 ∧ b2 ≤ 191 ∧ (b1 = 240 → 144 ≤ b2) ∧ (b1 = 244 → b2 ≤ 143) ∧
                      128 ≤ b3 ∧ b3 ≤ 191 ∧ 128 ≤ b4 ∧ b4 ≤ 191 then
                    (utf8Decode rest4).map
                      (fun cs =>
                        ((b1 - 240) * 262144 + (b2 - 128) * 4096 + (b3 - 128) * 64 +
                          (b4 - 128)) :: cs)
                  else none
                else none

/-- The Windows-1252 byte-to-code-point table (bytes `0x80`–`0x9F` map to
their special characters, all other bytes map to themselves; every byte
decodes, so the `WINDOWS_1252` fallback never reports errors). -/
def windows1252Map (b : Nat) : Nat :=
  if b = 128 then 8364
  else if b = 130 then 8218
  else if b = 131 then 402
  else if b = 132 then 8222
  else if b = 133 then 8230
  else if b = 134 then 8224
  else if b = 135 then 8225
  else if b = 136 then 710
  else if b = 137 then 8240
  else if b = 138 then 352
  else if b = 139 then 8249
  else if b = 140 then 338
  else if b = 142 then 381
  else if b = 145 then 8216
  else if b = 146 then 8217
  else if b = 147 then 8220
  else if b = 148 then 8221
  else if b = 149 then 8226
  else if b = 150 then 8211
  else if b = 151 then 8212
  else if b = 152 then 732
  else if b = 153 then 8482
  else if b = 154 then 353
  else if b = 155 then 8250
  else if b = 156 then 339
  else if b = 158 then 382
  else if b = 159 then 376
  else b

/-- UTF-16 code-unit decoding: pair surrogates, reject lone surrogates
(`none` models the decoder reporting malformed input). -/
def utf16DecodeUnits : List Nat → Option (List Nat)
  | [] => some []
  | u :: rest =>
    if u < 55296 ∨ 57343 < u then
      (utf16DecodeUnits rest).map (fun cs => u :: cs)
    else if u ≤ 56319 then
      match rest with
      | u2 :: rest2 =>
        if 56320 ≤ u2 ∧ u2 ≤ 57343 then
          (utf16DecodeUnits rest2).map
            (fun cs => (65536 + (u - 55296) * 1024 + (u2 - 56320)) :: cs)
        else none
      | [] => none
    else none

/-- Bytes to big-endian 16-bit units; an odd trailing byte is malformed. -/
def utf16beUnits : List Nat → Option (List Nat)
  | [] => some []
  | [_] => none
  | b1 :: b2 :: rest => (utf16beUnits rest).map (fun us => (b1 * 256 + b2) :: us)

/-- Bytes to little-endian 16-bit units; an odd trailing byte is malformed. -/
def utf16leUnits : List Nat → Option (List Nat)
  | [] => some []
  | [_] => none
  | b1 :: b2 :: rest => (utf16leUnits rest).map (fun us => (b2 * 256 + b1) :: us)

def utf16beDecode (bs : List Nat) : Option (List Nat) :=
  (utf16beUnits bs).bind utf16DecodeUnits

def utf16leDecode (bs : List Nat) : Option (List Nat) :=
  (utf16leUnits bs).bind utf16DecodeUnits

/-- `encoding_rs::Encoding::decode`'s BOM sniffing: a leading UTF-8 BOM
switches to UTF-8 decoding of the remainder (stripping the BOM), a
UTF-16 BOM switches to UTF-16 of that endianness; otherwise the
encoding's own decoder `dec` is used on the whole buffer. -/
def decode_with_bom (dec : List Nat → Option (List Nat)) (bs : List Nat) :
    Option (List Nat) :=
  if bs.take 3 = [239, 187, 191] then utf8Decode (bs.drop 3)
  else if bs.take 2 = [254, 255] then utf16beDecode (bs.drop 2)
  else if bs.take 2 = [255, 254] then utf16leDecode (bs.drop 2)
  else dec bs

/-- The decode step shared by `read_response` and
`read_multiline_response`: `encoding_rs::UTF_8.decode` (BOM sniffing,
then strict UTF-8), falling back to `WINDOWS_1252.decode` (BOM sniffing
again, then the total Windows-1252 table) when the first attempt reports
errors.  `none` — both attempts report errors, possible only via a BOM
redirect — is the source's `DecodingError`. -/
def decode_line (bs : List Nat) : Option (List Nat) :=
  match decode_with_bom utf8Decode bs with
  | some cps => some cps
  | none => decode_with_bom (fun l => some (l.map windows1252Map)) bs

/-! ### The byte stream and the single-line read loop -/

deriving instance DecidableEq for Except

/-- One outcome of a one-byte `self.stream.read(...)` call. -/
inductive StreamEvent where
  | readByte (b : Nat)
  | readErr (k : IoErrorKind)
deriving DecidableEq, Repr

/-- A stream that delivers the given bytes without I/O errors. -/
def byteEvents (bs : List Nat) : List StreamEvent :=
  bs.map .readByte

/-- The `while` condition of the byte-reading loops in `read_response`
and `read_multiline_response` (`nntp.rs` lines 624–627 and 695–698):
keep reading while
`line_buffer.len() < 2 || (line_buffer[len-1] != LF && line_buffer[len-2] != CR)`. -/
abbrev line_incomplete (buf : List Nat) : Prop :=
  buf.length < 2 ∨
    (buf.getD (buf.length - 1) 0 ≠ 10 ∧ buf.getD (buf.length - 2) 0 ≠ 13)

/-- The shared byte-reading loop of `read_response` and
`read_multiline_response`: read one byte at a time into `line_buffer`
until the loop condition fails.  Read errors are wrapped by
`errors::response_error_or_network` exactly as in both call sites.
The whole result is an `Option`: `none` models an execution that never
returns.

At premature EOF (the event list exhausted), `TcpStream::read` returns
`Ok(0)`; the source's `Ok(_) => {}` ignores the count and pushes the
stale `0` from the freshly re-initialised one-byte buffer, on every
further iteration.  That exits the loop only when the current buffer
already ends in CR (the De Morgan slip makes `second-to-last == CR` an
exit condition), appending one stale NUL; otherwise zeros are appended
forever and the loop never terminates.  No error is ever produced at
EOF. -/
def read_line_loop : List StreamEvent → List Nat →
    Option (Except NNTPError (List Nat × List StreamEvent))
  | events, line_buffer =>
    if line_incomplete line_buffer then
      match events with
      | [] =>
        if line_buffer.getLast? = some 13 then some (.ok (line_buffer ++ [0], []))
        else none
      | .readByte b :: rest => read_line_loop rest (line_buffer ++ [b])
      | .readErr k :: _ => some (.error (response_error_or_network k))
    else
      some (.ok (line_buffer, events))

theorem read_line_loop_stop {buf : List Nat} (events : List StreamEvent)
    (h : ¬ line_incomplete buf) : read_line_loop events buf = some (.ok (buf, events)) := by
  rw [read_line_loop.eq_def]
  simp [h]

theorem read_line_loop_byte {buf : List Nat} (b : Nat) (rest : List StreamEvent)
    (h : line_incomplete buf) :
    read_line_loop (.readByte b :: rest) buf = read_line_loop rest (buf ++ [b]) := by
  rw [read_line_loop.eq_def]
  simp [h]

theorem read_line_loop_err {buf : List Nat} (k : IoErrorKind) (rest : List StreamEvent)
    (h : line_incomplete buf) :
    read_line_loop (.readErr k :: rest) buf = some (.error (response_error_or_network k)) := by
  rw [read_line_loop.eq_def]
  simp [h]

/-- A successful line read leaves strictly fewer events than it was
given, counting the starting buffer. -/
theorem read_line_loop_length :
    ∀ (events : List StreamEvent) (acc buf : List Nat) (rest : List StreamEvent),
      read_line_loop events acc = some (.ok (buf, rest)) →
      rest.length + 1 ≤ events.length + acc.length := by
  intro events
  induction events with
  | nil =>
    intro acc buf rest h
    by_cases hc : line_incomplete acc
    · rw [read_line_loop.eq_def] at h
      simp only [if_pos hc] at h
      by_cases hl : acc.getLast? = some 13
      · rw [if_pos hl] at h
        obtain ⟨rfl, rfl⟩ : acc ++ [0] = buf ∧ ([] : List StreamEvent) = rest := by
          simpa using h
        have hne : acc ≠ [] := by
          intro hcon
          subst hcon
          simp at hl
        have := List.length_pos.mpr hne
        simp only [List.length_nil]
        omega
      · rw [if_neg hl] at h
        exact absurd h (by simp)
    · rw [read_line_loop_stop _ hc] at h
      obtain ⟨rfl, rfl⟩ : acc = buf ∧ ([] : List StreamEvent) = rest := by
        simpa using h
      simp only [line_incomplete, not_or] at hc
      simp only [List.length_nil]
      omega
  | cons e tail ih =>
    intro acc buf rest h
    by_cases hc : line_incomplete acc
    · cases e with
      | readByte b =>
        rw [read_line_loop_byte b tail hc] at h
        have := ih (acc ++ [b]) buf rest h
        simp only [List.length_append, List.length_cons, List.length_nil] at this ⊢
        omega
      | readErr k =>
        rw [read_line_loop_err k tail hc] at h
        exact absurd h (by simp)
    · rw [read_line_loop_stop _ hc] at h
      obtain ⟨rfl, rfl⟩ : acc = buf ∧ e :: tail = rest := by
        simpa using h
      simp only [line_incomplete, not_or] at hc
      simp only [List.length_cons]
      omega

/-! ### Multi-line reads and status-line parsing -/

/-- `nntp.rs::read_multiline_response` (outer `while !complete` loop):
read CRLF-framed lines, decode each one, stop on a decoded line equal to
`".\r\n"` (code points `[46, 13, 10]`) without appending it; all other
lines are appended in order.  `response` is the accumulator
(`Vec<String> response` in the source). -/
def read_multiline_loop (events : List StreamEvent) (response : List (List Nat)) :
    Option (Except NNTPError (List (List Nat))) :=
  match h : read_line_loop events [] with
  | none => none
  | some (.error e) => some (.error e)
  | some (.ok (line_buffer, rest)) =>
    match decode_line line_buffer with
    | none => some (.error .DecodingError)
    | some decoded =>
      if decoded = [46, 13, 10] then
        some (.ok response)
      else
        read_multiline_loop rest (response ++ [decoded])
termination_by events.length
decreasing_by
  have := read_line_loop_length events [] line_buffer rest h
  simp only [List.length_nil] at this
  omega

/-- `nntp.rs::read_multiline_response`, starting from an empty response
vector. -/
def read_multiline_response (events : List StreamEvent) :
    Option (Except NNTPError (List (List Nat))) :=
  read_multiline_loop events []

/-- `str::trim_matches` with a set of characters given as a Boolean
predicate: strip matching characters from both ends. -/
def trim_matches (p : Nat → Bool) (l : List Nat) : List Nat :=
  ((l.dropWhile p).reverse.dropWhile p).reverse

/-- Trimming `&['\r', '\n']` (used by `read_response` and
`Article::new_article`). -/
def trim_crlf (l : List Nat) : List Nat :=
  trim_matches (fun c => c == 13 || c == 10) l

/-- Trimming `&['\r', '\n', ' ']` (used by both `NewsGroup`
constructors). -/
def trim_crlf_space (l : List Nat) : List Nat :=
  trim_matches (fun c => c == 13 || c == 10 || c == 32) l

/-- Rust `str::splitn(2, sep)`: the piece before the first separator and
everything after it.  `none` models the iterator yielding a single piece
(no separator present), in which case the source's second
`.nth(0).unwrap()` — and the `response_parts[1]` indexing in
`read_response` — would panic. -/
def splitn2 (sep : Nat) : List Nat → Option (List Nat × List Nat)
  | [] => none
  | c :: rest =>
    if c = sep then some ([], rest)
    else (splitn2 sep rest).map (fun p => (c :: p.1, p.2))

/-- Digit run of Rust's integer `from_str`: `none` unless the list is a
non-empty string of decimal digits. -/
def parseDigitsAux : List Nat → Nat → Option Nat
  | [], acc => some acc
  | c :: rest, acc =>
    if 48 ≤ c ∧ c ≤ 57 then parseDigitsAux rest (acc * 10 + (c - 48)) else none

def parseDigits : List Nat → Option Nat
  | [] => none
  | c :: rest => parseDigitsAux (c :: rest) 0

/-- `isize` bounds on the 64-bit targets this crate is built for. -/
def isize_min : Int := -9223372036854775808

def isize_max : Int := 9223372036854775807

/-- Rust `isize::from_str` on a code-point string: an optional sign
followed by at least one decimal digit; values outside the machine
`isize` range are a `from_str` overflow error (`none`). -/
def parse_isize (l : List Nat) : Option Int :=
  match l with
  | [] => none
  | c :: rest =>
    if c = 43 then
      (parseDigits rest).bind
        (fun n => if (n : Int) ≤ isize_max then some (n : Int) else none)
    else if c = 45 then
      (parseDigits rest).bind
        (fun n => if isize_min ≤ -(n : Int) then some (-(n : Int)) else none)
    else
      (parseDigits (c :: rest)).bind
        (fun n => if (n : Int) ≤ isize_max then some (n : Int) else none)

/-- `nntp.rs::read_response`: read one CRLF-terminated line, decode it,
strip CR/LF from both ends, validate the `NNN<space>rest` shape, parse
the code and compare it with the expected one.  Returns the parsed code,
the remainder of the line, and the unconsumed stream events.

The `splitn2 = none` branch is unreachable — the shape check just above
guarantees a space at index 3 — and stands in for the source's
out-of-bounds panic on `response_parts[1]`.  The outer `none` models an
execution that never returns (the EOF loop of `read_line_loop`). -/
def read_response (expected_code : ResponseCode) (events : List StreamEvent) :
    Option (Except NNTPError (Int × List Nat × List StreamEvent)) :=
  match read_line_loop events [] with
  | none => none
  | some (.error e) => some (.error e)
  | some (.ok (line_buffer, rest_events)) =>
    match decode_line line_buffer with
    | none => some (.error .DecodingError)
    | some response =>
      let trimmed_response := trim_crlf response
      if trimmed_response.length < 5 ∨ trimmed_response.getD 3 0 ≠ 32 then
        some (.error (.InvalidResponse trimmed_response))
      else
        match splitn2 32 trimmed_response with
        | none => some (.error (.InvalidResponse trimmed_response))
        | some (code_str, message) =>
          match parse_isize code_str with
          | none => some (.error (.InvalidResponse trimmed_response))
          | some code =>
            if code ≠ expected_code.val then
              some (.error (.ResponseCode expected_code code))
            else
              some (.ok (code, message, rest_events))

/-! ### Domain model: `Article` and `NewsGroup` -/

/-- `Article` with its `HashMap<String, String>` of headers modelled as
an association list under `hashmap_insert` (single-valued: inserting an
existing key overwrites its value). -/
structure Article where
  headers : List (List Nat × List Nat)
  body : List (List Nat)
deriving DecidableEq, Repr

/-- `HashMap::insert`: overwrite the value of an existing key, otherwise
add the binding. -/
def hashmap_insert (m : List (List Nat × List Nat)) (k v : List Nat) :
    List (List Nat × List Nat) :=
  if m.any (fun p => p.1 = k) then
    m.map (fun p => if p.1 = k then (k, v) else p)
  else
    m ++ [(k, v)]

/-- The loop body of `Article::new_article`: every line equal to `"\r\n"`
flips `parsing_headers` to `false` and is skipped (`continue`); while
`parsing_headers` holds, a line is split at its first `:` into key and
value, both trimmed of `\r`/`\n`; afterwards lines are appended to the
body.  A header line without `:` makes the source panic
(`.nth(0).unwrap()` on the exhausted iterator), modelled by `none`. -/
def new_article_loop : List (List Nat) → List (List Nat × List Nat) → List (List Nat) → Bool →
    Option Article
  | [], headers, body, _ => some ⟨headers, body⟩
  | i :: rest, headers, body, parsing_headers =>
    if i = [13, 10] then
      new_article_loop rest headers body false
    else if parsing_headers then
      match splitn2 58 i with
      | some (key, value) =>
        new_article_loop rest (hashmap_insert headers (trim_crlf key) (trim_crlf value)) body
          parsing_headers
      | none => none
  else
      new_article_loop rest headers (body ++ [i]) parsing_headers

/-- `Article::new_article`. -/
def Article.new_article (lines : List (List Nat)) : Option Article :=
  new_article_loop lines [] [] true

/-- `NewsGroup` (`nntp.rs` lines 65–72); `isize` fields as `Int`. -/
structure NewsGroup where
  name : List Nat
  high : Int
  low : Int
  number : Int
  status : List Nat
deriving DecidableEq, Repr

/-- Rust `str::split(sep)`: split at every separator, keeping empty
pieces; never returns an empty list. -/
def split_char (sep : Nat) : List Nat → List (List Nat)
  | [] => [[]]
  | c :: rest =>
    if c = sep then [] :: split_char sep rest
    else
      match split_char sep rest with
      | p :: ps => (c :: p) :: ps
      | [] => [[c]]

/-- Two's-complement wrap to the 64-bit `isize` range: the behaviour of
the source's `high - low` in a release build (a debug build would panic
on overflow instead; either way the exact difference is not produced
outside the `isize` range). -/
def isize_wrap (i : Int) : Int :=
  (i + 9223372036854775808) % 18446744073709551616 - 9223372036854775808

/-- `NewsGroup::from_list_response`: trim `\r`/`\n`/space from both ends,
split on spaces, parse fields `name high low status`.  `none` models the
source's panics: out-of-bounds indexing when fewer than four pieces
exist, or `unwrap` of a failed `isize` parse.  The `do`-steps follow the
source's evaluation order (`high`, `low`, then the struct literal's
fields).  The estimated count is the `isize` subtraction `high - low`,
which wraps on overflow. -/
def NewsGroup.from_list_response (group : List Nat) : Option NewsGroup := do
  let trimmed_group := trim_crlf_space group
  let split_group := split_char 32 trimmed_group
  let s1 ← split_group.get? 1
  let high ← parse_isize s1
  let s2 ← split_group.get? 2
  let low ← parse_isize s2
  let s0 ← split_group.get? 0
  let s3 ← split_group.get? 3
  some ⟨s0, high, low, isize_wrap (high - low), s3⟩

/-- `NewsGroup::from_group_response`: same trimming and splitting, fields
`number low high name` with an empty status. -/
def NewsGroup.from_group_response (group : List Nat) : Option NewsGroup := do
  let trimmed_group := trim_crlf_space group
  let split_group := split_char 32 trimmed_group
  let s0 ← split_group.get? 0
  let number ← parse_isize s0
  let s1 ← split_group.get? 1
  let low ← parse_isize s1
  let s2 ← split_group.get? 2
  let high ← parse_isize s2
  let s3 ← split_group.get? 3
  some ⟨s3, high, low, number, []⟩

/-- Decimal digits of a natural number, most significant first. -/
def natToDigits (n : Nat) : List Nat :=
  if h : n < 10 then [48 + n] else natToDigits (n / 10) ++ [48 + n % 10]
decreasing_by omega

/-- Rust's `format!("{}", i)` for an `isize`: minus sign followed by the
decimal digits of the absolute value. -/
def intToStr (i : Int) : List Nat :=
  if i < 0 then 45 :: natToDigits i.natAbs else natToDigits i.toNat

/-! ### Command surface -/

/-- `nntp.rs::retrieve_article` (backing `article`, `article_by_id` and
`article_by_number`): write the `ARTICLE` command (outcome `write_res`,
errors wrapped by `errors::article_error_or_network`), expect a 220
status, convert an expected-220/received-423 mismatch into
`ArticleUnavailable` (the source matches the error against the pattern
`ResponseCode { expected: ArticleFollows, received: 423 }`, here an
equality test on the same value), then read the multi-line payload and
structure it; outer `none` models an `Article::new_article` panic. -/
def retrieve_article (write_res : Except IoErrorKind Unit) (events : List StreamEvent) :
    Option (Except NNTPError Article) :=
  match write_res with
  | .error e => some (.error (article_error_or_network e))
  | .ok _ =>
    match read_response .ArticleFollows events with
    | none => none
    | some (.error e) =>
      if e = .ResponseCode .ArticleFollows 423 then some (.error .ArticleUnavailable)
      else some (.error e)
    | some (.ok (_, _, rest)) =>
      match read_multiline_response rest with
      | none => none
      | some (.ok lines) => (Article.new_article lines).map .ok
      | some (.error e) => some (.error e)

/-- `nntp.rs::retrieve_raw_article` (backing `raw_article_by_number`):
same as `retrieve_article` but the payload lines are returned unparsed. -/
def retrieve_raw_article (write_res : Except IoErrorKind Unit) (events : List StreamEvent) :
    Option (Except NNTPError (List (List Nat))) :=
  match write_res with
  | .error e => some (.error (article_error_or_network e))
  | .ok _ =>
    match read_response .ArticleFollows events with
    | none => none
    | some (.error e) =>
      if e = .ResponseCode .ArticleFollows 423 then some (.error .ArticleUnavailable)
      else some (.error e)
    | some (.ok (_, _, rest)) =>
      match read_multiline_response rest with
      | none => none
      | some (.ok lines) => some (.ok lines)
      | some (.error e) => some (.error e)

/-- `nntp.rs::list`: write `LIST`, expect 215, read the multi-line
payload and parse every line with `NewsGroup::from_list_response`; outer
`none` models a parse panic on a malformed listing line. -/
def list (write_res : Except IoErrorKind Unit) (events : List StreamEvent) :
    Option (Except NNTPError (List NewsGroup)) :=
  match write_res with
  | .error e => some (.error (write_error_or_network e))
  | .ok _ =>
    match read_response .InformationFollows events with
    | none => none
    | some (.error e) => some (.error e)
    | some (.ok (_, _, rest)) =>
      match read_multiline_response rest with
      | none => none
      | some (.ok lines) => (lines.mapM NewsGroup.from_list_response).map .ok
      | some (.error e) => some (.error e)

/-- `nntp.rs::group`: write `GROUP name`, expect 211, parse the rest of
the status line with `NewsGroup::from_group_response`; outer `none`
models a parse panic. -/
def group (write_res : Except IoErrorKind Unit) (events : List StreamEvent) :
    Option (Except NNTPError NewsGroup) :=
  match write_res with
  | .error e => some (.error (write_error_or_network e))
  | .ok _ =>
    match read_response .ArticleNumbersFollows events with
    | none => none
    | some (.error e) => some (.error e)
    | some (.ok (_, res, _)) => (NewsGroup.from_group_response res).map .ok

/-- `nntp.rs::is_valid_message`: at least five bytes, the last five being
`CR LF . CR LF`. -/
def is_valid_message (message : List Nat) : Bool :=
  let length := message.length
  decide (5 ≤ length) &&
    (message.getD (length - 1) 0 == 10 &&
      (message.getD (length - 2) 0 == 13 &&
        (message.getD (length - 3) 0 == 46 &&
          (message.getD (length - 4) 0 == 10 &&
            (message.getD (length - 5) 0 == 13)))))

/-- The literal reason string of the `InvalidMessage` error built by
`post`. -/
def invalid_message_reason : List Nat :=
  ("Invalid message format. Message must end with \"\r\n.\r\n\"".data.map Char.toNat)

/-- The bytes of the `"POST\r\n"` command. -/
def post_command : List Nat := [80, 79, 83, 84, 13, 10]

/-- `nntp.rs::post`: refuse invalid messages with `InvalidMessage`
before any write; otherwise write `POST`, await 340, write the message
verbatim, await 240.  The second component collects the byte strings
actually written to the stream, in order. -/
def post (message : List Nat) (write_res1 write_res2 : Except IoErrorKind Unit)
    (events : List StreamEvent) : Option (Except NNTPError Unit × List (List Nat)) :=
  if ¬ is_valid_message message then
    some (.error (.InvalidMessage message invalid_message_reason), [])
  else
    match write_res1 with
    | .error e => some (.error (write_error_or_network e), [])
    | .ok _ =>
      match read_response .SendArticleToPost events with
      | none => none
      | some (.error e) => some (.error e, [post_command])
      | some (.ok (_, _, rest)) =>
        match write_res2 with
        | .error e => some (.error (write_error_or_network e), [post_command])
        | .ok _ =>
          match read_response .ArticleReceivedOK rest with
          | none => none
          | some (.error e) => some (.error e, [post_command, message])
          | some (.ok _) => some (.ok (), [post_command, message])

/-! ### Lemmas about the single-line read loop -/

theorem line_incomplete_of_clean {l : List Nat} (h : ∀ x ∈ l, x ≠ 13 ∧ x ≠ 10) :
    line_incomplete l := by
  by_cases hl : l.length < 2
  · exact Or.inl hl
  · refine Or.inr ⟨?_, ?_⟩
    · have h1 : l.length - 1 < l.length := by omega
      rw [List.getD_eq_getElem l 0 h1]
      exact (h _ (l.getElem_mem h1)).2
    · have h2 : l.length - 2 < l.length := by omega
      rw [List.getD_eq_getElem l 0 h2]
      exact (h _ (l.getElem_mem h2)).1

theorem line_incomplete_snoc_cr {m : List Nat} (h : ∀ x ∈ m, x ≠ 13 ∧ x ≠ 10) :
    line_incomplete (m ++ [13]) := by
  by_cases hl : (m ++ [13]).length < 2
  · exact Or.inl hl
  · have hm : 1 ≤ m.length := by
      simp only [List.length_append, List.length_cons, List.length_nil] at hl ⊢
      omega
    refine Or.inr ⟨?_, ?_⟩
    · have h1 : (m ++ [13]).length - 1 = m.length := by simp
      rw [h1, List.getD_eq_getElem _ 0 (by simp), List.getElem_concat_length _ _ _ rfl]
      omega
    · have h2 : (m ++ [13]).length - 2 < m.length := by
        simp only [List.length_append, List.length_cons, List.length_nil]
        omega
      rw [List.getD_eq_getElem _ 0 (by simp only [List.length_append]; omega)]
      rw [List.getElem_append_left h2]
      exact (h _ (m.getElem_mem h2)).1

theorem not_line_incomplete_crlf (m : List Nat) : ¬ line_incomplete (m ++ [13, 10]) := by
  intro hcon
  rcases hcon with hlen | ⟨hlast, _⟩
  · simp only [List.length_append, List.length_cons, List.length_nil] at hlen
    omega
  · apply hlast
    have h1 : (m ++ [13, 10]).length - 1 = m.length + 1 := by simp
    have h2 : m.length + 1 < (m ++ [13, 10]).length := by simp
    rw [h1, List.getD_eq_getElem _ 0 h2, List.getElem_append_right (by omega)]
    simp

/-- Consuming a run of bytes for which the loop condition keeps holding. -/
theorem read_line_loop_consume :
    ∀ (m acc : List Nat) (rest : List StreamEvent),
      (∀ k, k < m.length → line_incomplete (acc ++ m.take k)) →
      read_line_loop (byteEvents m ++ rest) acc = read_line_loop rest (acc ++ m) := by
  intro m
  induction m with
  | nil => intro acc rest _; simp [byteEvents]
  | cons c m' ih =>
    intro acc rest h
    have h0 : line_incomplete acc := by
      have := h 0 (by simp)
      simpa using this
    have step : read_line_loop (byteEvents (c :: m') ++ rest) acc =
        read_line_loop (byteEvents m' ++ rest) (acc ++ [c]) := by
      simp only [byteEvents, List.map_cons, List.cons_append]
      exact read_line_loop_byte c _ h0
    rw [step, ih (acc ++ [c]) rest ?_, List.append_assoc]
    · rfl
    · intro k hk
      have := h (k + 1) (by simpa using Nat.succ_lt_succ hk)
      simpa [List.append_assoc] using this

/-- Reading one well-formed wire line: a clean body (no CR, no LF)
followed by CRLF is consumed exactly, and returned with its CRLF. -/
theorem read_line_loop_line (m : List Nat) (h : ∀ x ∈ m, x ≠ 13 ∧ x ≠ 10)
    (rest : List StreamEvent) :
    read_line_loop (byteEvents (m ++ [13, 10]) ++ rest) [] = some (.ok (m ++ [13, 10], rest)) := by
  have hcons : ∀ k, k < (m ++ [13, 10]).length →
      line_incomplete (([] : List Nat) ++ (m ++ [13, 10]).take k) := by
    intro k hk
    simp only [List.nil_append]
    simp only [List.length_append, List.length_cons, List.length_nil] at hk
    by_cases hkm : k ≤ m.length
    · rw [List.take_append_of_le_length hkm]
      exact line_incomplete_of_clean (fun x hx => h x (List.mem_of_mem_take hx))
    · have hk1 : k = m.length + 1 := by omega
      subst hk1
      rw [List.take_append]
      simpa using line_incomplete_snoc_cr h
  rw [read_line_loop_consume (m ++ [13, 10]) [] rest hcons]
  simp only [List.nil_append]
  exact read_line_loop_stop rest (not_line_incomplete_crlf m)

/-! ### UTF-8 round-trip lemmas -/

/-- UTF-8 encoding of a code-point string: the wire form of a text line. -/
def utf8EncodeStr : List Nat → List Nat
  | [] => []
  | c :: cs => utf8EncodeChar c ++ utf8EncodeStr cs

theorem utf8EncodeStr_append (a b : List Nat) :
    utf8EncodeStr (a ++ b) = utf8EncodeStr a ++ utf8EncodeStr b := by
  induction a with
  | nil => simp [utf8EncodeStr]
  | cons c cs ih => simp [utf8EncodeStr, ih]

theorem utf8Decode_ascii (b1 : Nat) (h : b1 < 128) (rest : List Nat) :
    utf8Decode (b1 :: rest) = (utf8Decode rest).map (fun cs => b1 :: cs) := by
  rw [utf8Decode.eq_def]
  simp [h]

theorem utf8Decode_two (b1 b2 : Nat) (h1 : 194 ≤ b1 ∧ b1 ≤ 223) (h2 : 128 ≤ b2 ∧ b2 ≤ 191)
    (rest : List Nat) :
    utf8Decode (b1 :: b2 :: rest) =
      (utf8Decode rest).map (fun cs => ((b1 - 192) * 64 + (b2 - 128)) :: cs) := by
  rw [utf8Decode.eq_def]
  have hn : ¬ b1 < 128 := by omega
  simp [hn, h1, h2]

theorem utf8Decode_three (b1 b2 b3 : Nat) (h1 : 224 ≤ b1 ∧ b1 ≤ 239)
    (h2 : 128 ≤ b2 ∧ b2 ≤ 191 ∧ (b1 = 224 → 160 ≤ b2) ∧ (b1 = 237 → b2 ≤ 159))
    (h3 : 128 ≤ b3 ∧ b3 ≤ 191) (rest : List Nat) :
    utf8Decode (b1 :: b2 :: b3 :: rest) =
      (utf8Decode rest).map
        (fun cs => ((b1 - 224) * 4096 + (b2 - 128) * 64 + (b3 - 128)) :: cs) := by
  rw [utf8Decode.eq_def]
  have hn : ¬ b1 < 128 := by omega
  have hn2 : ¬ (194 ≤ b1 ∧ b1 ≤ 223) := by omega
  simp [hn, hn2, h1, h2.1, h2.2.1, h2.2.2.1, h2.2.2.2, h3.1, h3.2]
  intro hC
  obtain ⟨h237, hgt⟩ := hC h2.2.2.1
  have := h2.2.2.2 h237
  omega

theorem utf8Decode_four (b1 b2 b3 b4 : Nat) (h1 : 240 ≤ b1 ∧ b1 ≤ 244)
    (h2 : 128 ≤ b2 ∧ b2 ≤ 191 ∧ (b1 = 240 → 144 ≤ b2) ∧ (b1 = 244 → b2 ≤ 143))
    (h3 : 128 ≤ b3 ∧ b3 ≤ 191) (h4 : 128 ≤ b4 ∧ b4 ≤ 191) (rest : List Nat) :
    utf8Decode (b1 :: b2 :: b3 :: b4 :: rest) =
      (utf8Decode rest).map
        (fun cs =>
          ((b1 - 240) * 262144 + (b2 - 128) * 4096 + (b3 - 128) * 64 + (b4 - 128)) :: cs) := by
  rw [utf8Decode.eq_def]
  have hn : ¬ b1 < 128 := by omega
  have hn2 : ¬ (194 ≤ b1 ∧ b1 ≤ 223) := by omega
  have hn3 : ¬ (224 ≤ b1 ∧ b1 ≤ 239) := by omega
  simp [hn, hn2, hn3, h1, h2.1, h2.2.1, h2.2.2.1, h2.2.2.2, h3.1, h3.2, h4.1, h4.2]
  intro hC
  obtain ⟨h244, hgt⟩ := hC h2.2.2.1
  have := h2.2.2.2 h244
  omega

/-- Decoding undoes encoding one scalar at a time. -/
theorem utf8Decode_encodeChar (c : Nat) (h : UnicodeScalar c) (bs : List Nat) :
    utf8Decode (utf8EncodeChar c ++ bs) = (utf8Decode bs).map (fun cs => c :: cs) := by
  obtain ⟨hlt, hsur⟩ := h
  by_cases hc1 : c < 128
  · rw [show utf8EncodeChar c = [c] by simp [utf8EncodeChar, hc1]]
    simpa using utf8Decode_ascii c hc1 bs
  · by_cases hc2 : c < 2048
    · rw [show utf8EncodeChar c = [192 + c / 64, 128 + c % 64] by
        simp [utf8EncodeChar, hc1, hc2]]
      have hstep := utf8Decode_two (192 + c / 64) (128 + c % 64)
        (by omega) (by omega) bs
      simp only [List.cons_append, List.nil_append] at hstep ⊢
      rw [hstep, show (192 + c / 64 - 192) * 64 + (128 + c % 64 - 128) = c by omega]
    · by_cases hc3 : c < 65536
      · rw [show utf8EncodeChar c = [224 + c / 4096, 128 + c / 64 % 64, 128 + c % 64] by
          simp [utf8EncodeChar, hc1, hc2, hc3]]
        have hstep := utf8Decode_three (224 + c / 4096) (128 + c / 64 % 64) (128 + c % 64)
          (by omega)
          (by refine ⟨by omega, by omega, ?_, ?_⟩ <;> intro hb <;> omega)
          (by omega) bs
        simp only [List.cons_append, List.nil_append] at hstep ⊢
        rw [hstep,
          show (224 + c / 4096 - 224) * 4096 + (128 + c / 64 % 64 - 128) * 64 +
            (128 + c % 64 - 128) = c by omega]
      · rw [show utf8EncodeChar c =
            [240 + c / 262144, 128 + c / 4096 % 64, 128 + c / 64 % 64, 128 + c % 64] by
          simp [utf8EncodeChar, hc1, hc2, hc3]]
        have hstep := utf8Decode_four (240 + c / 262144) (128 + c / 4096 % 64)
          (128 + c / 64 % 64) (128 + c % 64)
          (by omega)
          (by refine ⟨by omega, by omega, ?_, ?_⟩ <;> intro hb <;> omega)
          (by omega) (by omega) bs
        simp only [List.cons_append, List.nil_append] at hstep ⊢
        rw [hstep,
          show (240 + c / 262144 - 240) * 262144 + (128 + c / 4096 % 64 - 128) * 4096 +
            (128 + c / 64 % 64 - 128) * 64 + (128 + c % 64 - 128) = c by omega]

/-- Decoding undoes encoding of a whole code-point string. -/
theorem utf8Decode_encodeStr (l : List Nat) (h : ∀ c ∈ l, UnicodeScalar c) :
    utf8Decode (utf8EncodeStr l) = some l := by
  induction l with
  | nil => simp [utf8EncodeStr, utf8Decode]
  | cons c cs ih =>
    rw [show utf8EncodeStr (c :: cs) = utf8EncodeChar c ++ utf8EncodeStr cs from rfl]
    rw [utf8Decode_encodeChar c (h c (by simp)) _]
    rw [ih (fun x hx => h x (by simp [hx]))]
    rfl

theorem take_three_cons (a : Nat) (l : List Nat) : (a :: l).take 3 = a :: l.take 2 := rfl

theorem take_two_cons (a : Nat) (l : List Nat) : (a :: l).take 2 = a :: l.take 1 := rfl

theorem take_one_cons (a : Nat) (l : List Nat) : (a :: l).take 1 = [a] := rfl

/-- The wire form of a text line whose first character is not U+FEFF
starts with none of the three byte-order marks `decode_with_bom` sniffs
for: UTF-8 lead bytes are never `0xFE`/`0xFF`, and `EF BB BF` is
exactly the encoding of U+FEFF. -/
theorem utf8EncodeStr_no_bom (l : List Nat) (h : ∀ c ∈ l, UnicodeScalar c)
    (hb : l.head? ≠ some 65279) :
    (utf8EncodeStr l).take 3 ≠ [239, 187, 191] ∧
      (utf8EncodeStr l).take 2 ≠ [254, 255] ∧ (utf8EncodeStr l).take 2 ≠ [255, 254] := by
  cases l with
  | nil => simp [utf8EncodeStr]
  | cons c cs =>
    obtain ⟨hlt, -⟩ := h c (by simp)
    have hcne : c ≠ 65279 := fun hcon => hb (by simp [hcon])
    rw [show utf8EncodeStr (c :: cs) = utf8EncodeChar c ++ utf8EncodeStr cs from rfl]
    by_cases h1 : c < 128
    · rw [show utf8EncodeChar c = [c] by simp [utf8EncodeChar, h1], List.singleton_append]
      refine ⟨?_, ?_, ?_⟩ <;> intro hcon
      · rw [take_three_cons] at hcon
        simp at hcon
        omega
      · rw [take_two_cons] at hcon
        simp at hcon
        omega
      · rw [take_two_cons] at hcon
        simp at hcon
        omega
    · by_cases h2 : c < 2048
      · rw [show utf8EncodeChar c = [192 + c / 64, 128 + c % 64] by
          simp [utf8EncodeChar, h1, h2]]
        simp only [List.cons_append, List.nil_append]
        refine ⟨?_, ?_, ?_⟩ <;> intro hcon
        · rw [take_three_cons] at hcon
          simp at hcon
          omega
        · rw [take_two_cons] at hcon
          simp at hcon
          omega
        · rw [take_two_cons] at hcon
          simp at hcon
          omega
      · by_cases h3 : c < 65536
        · rw [show utf8EncodeChar c = [224 + c / 4096, 128 + c / 64 % 64, 128 + c % 64] by
            simp [utf8EncodeChar, h1, h2, h3]]
          simp only [List.cons_append, List.nil_append]
          refine ⟨?_, ?_, ?_⟩ <;> intro hcon
          · rw [take_three_cons, take_two_cons, take_one_cons] at hcon
            simp at hcon
            omega
          · rw [take_two_cons, take_one_cons] at hcon
            simp at hcon
            omega
          · rw [take_two_cons, take_one_cons] at hcon
            simp at hcon
            omega
        · rw [show utf8EncodeChar c =
              [240 + c / 262144, 128 + c / 4096 % 64, 128 + c / 64 % 64, 128 + c % 64] by
            simp [utf8EncodeChar, h1, h2, h3]]
          simp only [List.cons_append, List.nil_append]
          refine ⟨?_, ?_, ?_⟩ <;> intro hcon
          · rw [take_three_cons, take_two_cons, take_one_cons] at hcon
            simp at hcon
            omega
          · rw [take_two_cons, take_one_cons] at hcon
            simp at hcon
            omega
          · rw [take_two_cons, take_one_cons] at hcon
            simp at hcon
            omega

/-- `decode_line` succeeds and is the identity on the wire form of a
text line, provided the line does not begin with U+FEFF (a leading BOM
is sniffed away by `encoding_rs`). -/
theorem decode_line_encodeStr (l : List Nat) (h : ∀ c ∈ l, UnicodeScalar c)
    (hb : l.head? ≠ some 65279) :
    decode_line (utf8EncodeStr l) = some l := by
  obtain ⟨hb3, hb2, hb2x⟩ := utf8EncodeStr_no_bom l h hb
  have hattempt : decode_with_bom utf8Decode (utf8EncodeStr l) = some l := by
    unfold decode_with_bom
    rw [if_neg hb3, if_neg hb2, if_neg hb2x]
    exact utf8Decode_encodeStr l h
  unfold decode_line
  rw [hattempt]

/-- Encoded bytes of a CR/LF-free scalar are themselves CR/LF-free. -/
theorem utf8EncodeChar_no_crlf (c : Nat) (h13 : c ≠ 13) (h10 : c ≠ 10) :
    ∀ b ∈ utf8EncodeChar c, b ≠ 13 ∧ b ≠ 10 := by
  intro b hb
  unfold utf8EncodeChar at hb
  split_ifs at hb with hc1 hc2 hc3 <;> simp at hb <;> omega

theorem utf8EncodeStr_no_crlf (l : List Nat) (h : ∀ c ∈ l, c ≠ 13 ∧ c ≠ 10) :
    ∀ b ∈ utf8EncodeStr l, b ≠ 13 ∧ b ≠ 10 := by
  induction l with
  | nil => simp [utf8EncodeStr]
  | cons c cs ih =>
    intro b hb
    rw [show utf8EncodeStr (c :: cs) = utf8EncodeChar c ++ utf8EncodeStr cs from rfl] at hb
    rcases List.mem_append.mp hb with hm | hm
    · exact utf8EncodeChar_no_crlf c (h c (by simp)).1 (h c (by simp)).2 b hm
    · exact ih (fun x hx => h x (by simp [hx])) b hm

/-! ### Trimming, splitting, and integer parsing lemmas -/

theorem dropWhile_eq_self_of_all {p : Nat → Bool} {l : List Nat}
    (h : ∀ x ∈ l, p x = false) : l.dropWhile p = l := by
  cases l with
  | nil => rfl
  | cons x xs =>
    rw [List.dropWhile_cons]
    simp [h x (by simp)]

theorem trim_matches_of_all {p : Nat → Bool} {l : List Nat}
    (h : ∀ x ∈ l, p x = false) : trim_matches p l = l := by
  unfold trim_matches
  rw [dropWhile_eq_self_of_all h,
    dropWhile_eq_self_of_all (fun x hx => h x (List.mem_reverse.mp hx)), List.reverse_reverse]


/-- Trimming CR/LF from a wire line with a CR/LF-free body removes
exactly the final CRLF. -/
theorem trim_crlf_line {m : List Nat} (h : ∀ x ∈ m, x ≠ 13 ∧ x ≠ 10) :
    trim_crlf (m ++ [13, 10]) = m := by
  cases m with
  | nil => rfl
  | cons x xs =>
    unfold trim_crlf trim_matches
    have hx := h x (by simp)
    rw [List.cons_append, List.dropWhile_cons, if_neg (by simp [hx.1, hx.2])]
    rw [show (x :: (xs ++ [13, 10])).reverse = 10 :: 13 :: (xs.reverse ++ [x]) by simp]
    rw [List.dropWhile_cons, if_pos (by decide), List.dropWhile_cons, if_pos (by decide)]
    rw [dropWhile_eq_self_of_all ?hall]
    · simp
    case hall =>
      intro y hy
      rcases List.mem_append.mp hy with hm | hm
      · have := h y (by simp [List.mem_reverse.mp hm])
        simp [this.1, this.2]
      · have heq : y = x := by simpa using hm
        subst heq
        simp [hx.1, hx.2]

theorem trim_matches_of_ends {p : Nat → Bool} {x z : Nat} (mid : List Nat)
    (hx : p x = false) (hz : p z = false) :
    trim_matches p (x :: mid ++ [z]) = x :: mid ++ [z] := by
  unfold trim_matches
  rw [List.cons_append, List.dropWhile_cons, if_neg (by simp [hx])]
  rw [show (x :: (mid ++ [z])).reverse = z :: (mid.reverse ++ [x]) by simp]
  rw [List.dropWhile_cons, if_neg (by simp [hz])]
  simp

theorem splitn2_append {sep : Nat} {a : List Nat} (rest : List Nat) (h : sep ∉ a) :
    splitn2 sep (a ++ sep :: rest) = some (a, rest) := by
  induction a with
  | nil => simp [splitn2]
  | cons c a' ih =>
    have hc : c ≠ sep := by
      intro hcon
      exact h (by simp [hcon])
    simp only [List.cons_append, splitn2, if_neg hc, List.append_eq]
    rw [ih (fun hm => h (by simp [hm]))]
    rfl

theorem split_char_no_sep {sep : Nat} {l : List Nat} (h : sep ∉ l) :
    split_char sep l = [l] := by
  induction l with
  | nil => rfl
  | cons c l' ih =>
    have hc : c ≠ sep := by
      intro hcon
      exact h (by simp [hcon])
    rw [split_char, if_neg hc, ih (fun hm => h (by simp [hm]))]

theorem split_char_append {sep : Nat} {a : List Nat} (rest : List Nat) (h : sep ∉ a) :
    split_char sep (a ++ sep :: rest) = a :: split_char sep rest := by
  induction a with
  | nil => simp [split_char]
  | cons c a' ih =>
    have hc : c ≠ sep := by
      intro hcon
      exact h (by simp [hcon])
    simp only [List.cons_append]
    rw [split_char, if_neg hc, ih (fun hm => h (by simp [hm]))]

theorem natToDigits_ne_nil (n : Nat) : natToDigits n ≠ [] := by
  rw [natToDigits]
  split <;> simp

theorem natToDigits_digits : ∀ (n : Nat), ∀ b ∈ natToDigits n, 48 ≤ b ∧ b ≤ 57 := by
  intro n
  induction n using Nat.strong_induction_on with
  | _ n ih =>
    intro b hb
    rw [natToDigits] at hb
    split at hb
    · simp at hb
      omega
    · rcases List.mem_append.mp hb with hm | hm
      · exact ih (n / 10) (by omega) b hm
      · simp at hm
        omega

theorem parseDigitsAux_natToDigits :
    ∀ (n : Nat), ∀ (acc : Nat) (rest : List Nat),
      parseDigitsAux (natToDigits n ++ rest) acc =
        parseDigitsAux rest (acc * 10 ^ (natToDigits n).length + n) := by
  intro n
  induction n using Nat.strong_induction_on with
  | _ n ih =>
    intro acc rest
    rw [natToDigits]
    split
    · next hlt =>
      rw [List.cons_append, parseDigitsAux, if_pos (by omega)]
      simp only [List.length_cons, List.length_nil]
      norm_num
    · next hge =>
      rw [List.append_assoc, List.singleton_append,
        ih (n / 10) (by omega) acc ((48 + n % 10) :: rest)]
      rw [parseDigitsAux, if_pos (by omega)]
      simp only [List.length_append, List.length_cons, List.length_nil]
      rw [pow_succ]
      congr 1
      have hmod : 48 + n % 10 - 48 = n % 10 := by omega
      rw [hmod]
      have := Nat.div_add_mod n 10
      ring_nf
      omega

theorem parseDigits_natToDigits (n : Nat) : parseDigits (natToDigits n) = some n := by
  obtain ⟨c, cs, hcons⟩ := List.exists_cons_of_ne_nil (natToDigits_ne_nil n)
  have := parseDigitsAux_natToDigits n 0 []
  rw [List.append_nil, hcons] at this
  rw [hcons, parseDigits, this, parseDigitsAux]
  norm_num

theorem parse_isize_intToStr (i : Int) (hmin : isize_min ≤ i) (hmax : i ≤ isize_max) :
    parse_isize (intToStr i) = some i := by
  by_cases hneg : i < 0
  · rw [show intToStr i = 45 :: natToDigits i.natAbs by rw [intToStr, if_pos hneg]]
    rw [parse_isize, if_neg (by omega), if_pos rfl, parseDigits_natToDigits]
    have habs : ((i.natAbs : Nat) : Int) = -i := Int.ofNat_natAbs_of_nonpos (le_of_lt hneg)
    simp [habs, hmin]
  · rw [show intToStr i = natToDigits i.toNat by rw [intToStr, if_neg hneg]]
    obtain ⟨c, cs, hcons⟩ := List.exists_cons_of_ne_nil (natToDigits_ne_nil i.toNat)
    have hc : 48 ≤ c ∧ c ≤ 57 := natToDigits_digits i.toNat c (by simp [hcons])
    rw [hcons, parse_isize, if_neg (by omega), if_neg (by omega), ← hcons,
      parseDigits_natToDigits]
    have htn : ((i.toNat : Nat) : Int) = i := Int.toNat_of_nonneg (by omega)
    simp [htn, hmax]

theorem intToStr_mem (i : Int) : ∀ b ∈ intToStr i, b = 45 ∨ (48 ≤ b ∧ b ≤ 57) := by
  intro b hb
  by_cases hneg : i < 0
  · rw [intToStr, if_pos hneg] at hb
    rcases List.mem_cons.mp hb with hb | hb
    · left; exact hb
    · right; exact natToDigits_digits _ b hb
  · rw [intToStr, if_neg hneg] at hb
    right; exact natToDigits_digits _ b hb

/-! ### Evaluating `read_response` on a well-formed status line -/

/-- The wire bytes of a status line `NNN<space>rest\r\n` with a
three-digit code. -/
def statusBytes (code : Nat) (restText : List Nat) : List Nat :=
  utf8EncodeStr ([48 + code / 100, 48 + code / 10 % 10, 48 + code % 10, 32] ++
    restText ++ [13, 10])

theorem natToDigits_three {code : Nat} (h : 100 ≤ code ∧ code ≤ 999) :
    natToDigits code = [48 + code / 100, 48 + code / 10 % 10, 48 + code % 10] := by
  have hdd : code / 10 / 10 = code / 100 := by omega
  rw [natToDigits, dif_neg (by omega), natToDigits, dif_neg (by omega), hdd,
    natToDigits, dif_pos (by omega)]
  simp

/-- `read_response` on a well-formed status line: success on the
expected code, a `ResponseCode` error carrying both codes otherwise. -/
theorem read_response_status (expected : ResponseCode) (code : Nat) (restText : List Nat)
    (extra : List StreamEvent)
    (hcode : 100 ≤ code ∧ code ≤ 999)
    (hrest : restText ≠ [])
    (hclean : ∀ c ∈ restText, UnicodeScalar c ∧ c ≠ 13 ∧ c ≠ 10) :
    read_response expected (byteEvents (statusBytes code restText) ++ extra) =
      some (if (code : Int) = expected.val then .ok ((code : Int), restText, extra)
        else .error (.ResponseCode expected (code : Int))) := by
  set M : List Nat := [48 + code / 100, 48 + code / 10 % 10, 48 + code % 10, 32] ++ restText
    with hM
  have hMclean : ∀ c ∈ M, c ≠ 13 ∧ c ≠ 10 := by
    intro c hc
    rw [hM] at hc
    rcases List.mem_append.mp hc with hm | hm
    · simp at hm
      omega
    · exact (hclean c hm).2
  have hMscalar : ∀ c ∈ M ++ [13, 10], UnicodeScalar c := by
    intro c hc
    rcases List.mem_append.mp hc with hm | hm
    · rw [hM] at hm
      rcases List.mem_append.mp hm with hm2 | hm2
      · simp at hm2
        constructor <;> omega
      · exact (hclean c hm2).1
    · simp at hm
      constructor <;> omega
  have henc1310 : utf8EncodeStr [13, 10] = [13, 10] := by decide
  have hsplit : statusBytes code restText = utf8EncodeStr M ++ [13, 10] := by
    rw [statusBytes, hM]
    simp [utf8EncodeStr, utf8EncodeStr_append, henc1310, List.append_assoc]
    decide
  have hline := read_line_loop_line (utf8EncodeStr M) (utf8EncodeStr_no_crlf M hMclean) extra
  have hMcons : M = (48 + code / 100) :: (48 + code / 10 % 10) :: (48 + code % 10) ::
      32 :: restText := by
    rw [hM]
    rfl
  have hdec : decode_line (utf8EncodeStr M ++ [13, 10]) = some (M ++ [13, 10]) := by
    rw [show utf8EncodeStr M ++ [13, 10] = utf8EncodeStr (M ++ [13, 10]) from by
      simp [utf8EncodeStr_append, henc1310]]
    refine decode_line_encodeStr _ hMscalar ?_
    rw [hMcons]
    simp only [List.cons_append, List.head?_cons, ne_eq, Option.some.injEq]
    omega
  have htrim : trim_crlf (M ++ [13, 10]) = M := trim_crlf_line hMclean
  have hlen : ¬ (M.length < 5 ∨ M.getD 3 0 ≠ 32) := by
    rw [hMcons]
    push_neg
    constructor
    · have := List.length_pos.mpr hrest
      simp only [List.length_cons]
      omega
    · simp [List.getD_cons_succ, List.getD_cons_zero]
  have hsplitn : splitn2 32 M =
      some ([48 + code / 100, 48 + code / 10 % 10, 48 + code % 10], restText) := by
    rw [show M = [48 + code / 100, 48 + code / 10 % 10, 48 + code % 10] ++ 32 :: restText
      from by rw [hMcons]; rfl]
    refine splitn2_append restText ?_
    intro hmem
    simp at hmem
    omega
  have hparse : parse_isize [48 + code / 100, 48 + code / 10 % 10, 48 + code % 10] =
      some (code : Int) := by
    rw [← natToDigits_three hcode]
    have hpi := parse_isize_intToStr (code : Int)
      (by simp only [isize_min]; omega) (by simp only [isize_max]; omega)
    rw [intToStr, if_neg (by omega)] at hpi
    simpa using hpi
  rw [hsplit]
  unfold read_response
  rw [hline]
  simp only [hdec, htrim, if_neg hlen, hsplitn, hparse]
  by_cases heq : (code : Int) = expected.val
  · simp [heq]
  · simp [heq]

/-! ### Evaluating `read_multiline_response` on a well-formed payload -/

/-- The wire bytes of a multi-line payload: each line's UTF-8 encoding in
order, followed by the terminator line `".\r\n"`. -/
def payloadBytes : List (List Nat) → List Nat
  | [] => [46, 13, 10]
  | l :: ls => utf8EncodeStr l ++ payloadBytes ls

/-- A well-formed payload line: scalar text ending in CRLF, no other CR
or LF, not the terminator line, and not beginning with U+FEFF (a leading
byte-order mark would be sniffed away by the decoder). -/
def PayloadLine (l : List Nat) : Prop :=
  (∀ c ∈ l, UnicodeScalar c) ∧
    (∃ m, l = m ++ [13, 10] ∧ ∀ c ∈ m, c ≠ 13 ∧ c ≠ 10) ∧
    l ≠ [46, 13, 10] ∧ l.head? ≠ some 65279

theorem read_multiline_loop_payload :
    ∀ (lines : List (List Nat)) (resp : List (List Nat)),
      (∀ l ∈ lines, PayloadLine l) →
      read_multiline_loop (byteEvents (payloadBytes lines)) resp =
        some (.ok (resp ++ lines)) := by
  intro lines
  induction lines with
  | nil =>
    intro resp _
    have hline := read_line_loop_line [46] (by intro x hx; simp at hx; omega) []
    rw [List.append_nil] at hline
    rw [read_multiline_loop]
    rw [show payloadBytes [] = [46] ++ [13, 10] from rfl, hline]
    simp [show decode_line [46, 13, 10] = some [46, 13, 10] from by decide]
  | cons l ls ih =>
    intro resp h
    obtain ⟨hscalar, ⟨m, hm, hmclean⟩, hterm, hbom⟩ := h l (by simp)
    have hencl : utf8EncodeStr l = utf8EncodeStr m ++ [13, 10] := by
      rw [hm, utf8EncodeStr_append, show utf8EncodeStr [13, 10] = [13, 10] from by decide]
    have hline := read_line_loop_line (utf8EncodeStr m) (utf8EncodeStr_no_crlf m hmclean)
      (byteEvents (payloadBytes ls))
    have hdec : decode_line (utf8EncodeStr m ++ [13, 10]) = some l := by
      rw [← hencl]
      exact decode_line_encodeStr l hscalar hbom
    rw [read_multiline_loop]
    rw [show payloadBytes (l :: ls) = utf8EncodeStr l ++ payloadBytes ls from rfl, hencl,
      show byteEvents ((utf8EncodeStr m ++ [13, 10]) ++ payloadBytes ls) =
        byteEvents (utf8EncodeStr m ++ [13, 10]) ++ byteEvents (payloadBytes ls) from by
          simp [byteEvents],
      hline]
    simp only [hdec, if_neg hterm]
    rw [ih (resp ++ [l]) (fun x hx => h x (by simp [hx]))]
    simp

/-- `read_multiline_response` returns exactly the payload lines, in
order, without the terminator. -/
theorem read_multiline_response_payload (lines : List (List Nat))
    (h : ∀ l ∈ lines, PayloadLine l) :
    read_multiline_response (byteEvents (payloadBytes lines)) = some (.ok lines) := by
  rw [read_multiline_response, read_multiline_loop_payload lines [] h]
  simp

/-! ### Claim theorems -/

/-- C1: for every multi-line payload of well-formed CRLF-terminated
lines `L1 … Ln` (no `Li` equal to `".\r\n"`, no CR or LF in `Li` except
its final CRLF) followed by the terminator line `".\r\n"`,
`read_multiline_response` returns exactly `[L1, …, Ln]` in order, each
line still carrying its trailing CRLF, and the terminator line is not
included in the result. -/
theorem claim_C1_amended (lines : List (List Nat))
    (h : ∀ l ∈ lines, PayloadLine l) :
    read_multiline_response (byteEvents (payloadBytes lines)) = some (.ok lines) :=
  read_multiline_response_payload lines h

theorem claim_C1_witness :
    read_multiline_response
        (byteEvents (payloadBytes [[97, 13, 10], [13, 10], [46, 46, 13, 10]])) =
      some (.ok [[97, 13, 10], [13, 10], [46, 46, 13, 10]]) := by
  apply claim_C1_amended
  intro l hl
  simp only [List.mem_cons, List.not_mem_nil, or_false] at hl
  rcases hl with rfl | rfl | rfl
  · exact ⟨by decide, ⟨[97], rfl, by decide⟩, by decide, by decide⟩
  · exact ⟨by decide, ⟨[], rfl, by decide⟩, by decide, by decide⟩
  · exact ⟨by decide, ⟨[46, 46], rfl, by decide⟩, by decide, by decide⟩

/-- C1 (counterexample): the claim as stated fails on a line that begins
with U+FEFF.  The line `"\uFEFFa\r\n"` (wire bytes `EF BB BF 61 0D 0A`)
is CRLF-terminated, contains no other CR or LF and is not the
terminator, yet `encoding_rs`'s BOM sniffing strips the leading BOM, so
the returned line is `"a\r\n"`, not the line that was sent. -/
theorem claim_C1_counterexample :
    read_multiline_response (byteEvents (payloadBytes [[65279, 97, 13, 10]])) =
        some (.ok [[97, 13, 10]]) ∧
      [[97, 13, 10]] ≠ [[65279, 97, 13, 10]] := by
  constructor
  · have hline := read_line_loop_line [239, 187, 191, 97] (by decide)
      (byteEvents [46, 13, 10])
    have hline2 := read_line_loop_line [46] (by decide) []
    rw [List.append_nil] at hline2
    rw [read_multiline_response, read_multiline_loop]
    rw [show byteEvents (payloadBytes [[65279, 97, 13, 10]]) =
        byteEvents ([239, 187, 191, 97] ++ [13, 10]) ++ byteEvents [46, 13, 10] from by
      decide]
    rw [hline]
    simp only [show decode_line ([239, 187, 191, 97] ++ [13, 10]) = some [97, 13, 10] from by
      decide]
    rw [if_neg (show ¬([97, 13, 10] = ([46, 13, 10] : List Nat)) from by decide),
      read_multiline_loop,
      show byteEvents [46, 13, 10] = byteEvents ([46] ++ [13, 10]) from by decide, hline2]
    simp only [show decode_line ([46] ++ [13, 10]) = some [46, 13, 10] from by decide]
    simp
  · decide

/-- C2: the claim says the single-line read loop stops exactly when the
buffer's last two bytes are CR LF, and in particular does not stop on a
bare LF or on a CR in second-to-last position.  The source's loop exit
condition is `last == LF || second-to-last == CR` — a De Morgan slip for
the intended conjunction — so it does stop early in both cases: on the
stream `"a\n\r\n"` it returns after `"a\n"`, and on `"b\rc\r\n"` it
returns `"b\rc"`, neither buffer ending in CR LF. -/
theorem claim_C2_loop_exit_condition :
    read_line_loop (byteEvents [97, 10, 13, 10]) [] =
        some (.ok ([97, 10], byteEvents [13, 10])) ∧
      read_line_loop (byteEvents [98, 13, 99, 13, 10]) [] =
        some (.ok ([98, 13, 99], byteEvents [13, 10])) ∧
      [97, 10].getD 0 0 ≠ 13 ∧ [98, 13, 99].getD 2 0 ≠ 10 := by
  decide

/-- C3: for every command with expected status code `C`, a well-formed
status line `C'<space>rest\r\n` makes `read_response` return
`(C', rest)` when `C' = C`, and the error
`ResponseCode { expected := C, received := C' }` carrying both codes
when `C' ≠ C`. -/
theorem claim_C3_expected_code (expected : ResponseCode) (code : Nat) (restText : List Nat)
    (extra : List StreamEvent)
    (hcode : 100 ≤ code ∧ code ≤ 999)
    (hrest : restText ≠ [])
    (hclean : ∀ c ∈ restText, UnicodeScalar c ∧ c ≠ 13 ∧ c ≠ 10) :
    read_response expected (byteEvents (statusBytes code restText) ++ extra) =
      some (if (code : Int) = expected.val then .ok ((code : Int), restText, extra)
        else .error (.ResponseCode expected (code : Int))) :=
  read_response_status expected code restText extra hcode hrest hclean

theorem claim_C3_witness :
    read_response .InformationFollows (byteEvents (statusBytes 211 [111, 107]) ++ []) =
        some (.error (.ResponseCode .InformationFollows 211)) ∧
      read_response .InformationFollows (byteEvents (statusBytes 215 [111, 107]) ++ []) =
        some (.ok (215, [111, 107], [])) := by
  constructor
  · rw [claim_C3_expected_code .InformationFollows 211 [111, 107] []
      (by decide) (by decide) (by decide)]
    decide
  · rw [claim_C3_expected_code .InformationFollows 215 [111, 107] []
      (by decide) (by decide) (by decide)]
    decide

/-! ### Helpers for the ARTICLE error path -/

theorem retrieve_article_resp_423 (events : List StreamEvent)
    (h : read_response .ArticleFollows events =
      some (.error (.ResponseCode .ArticleFollows 423))) :
    retrieve_article (.ok ()) events = some (.error .ArticleUnavailable) := by
  unfold retrieve_article
  rw [h]
  rfl

theorem retrieve_article_resp_error (events : List StreamEvent) (e : NNTPError)
    (h : read_response .ArticleFollows events = some (.error e))
    (hne : e ≠ .ResponseCode .ArticleFollows 423) :
    retrieve_article (.ok ()) events = some (.error e) := by
  unfold retrieve_article
  rw [h]
  show (if e = NNTPError.ResponseCode .ArticleFollows 423 then
      some (Except.error NNTPError.ArticleUnavailable) else some (Except.error e)) =
    some (Except.error e)
  rw [if_neg hne]

theorem retrieve_raw_article_resp_423 (events : List StreamEvent)
    (h : read_response .ArticleFollows events =
      some (.error (.ResponseCode .ArticleFollows 423))) :
    retrieve_raw_article (.ok ()) events = some (.error .ArticleUnavailable) := by
  unfold retrieve_raw_article
  rw [h]
  rfl

theorem retrieve_raw_article_resp_error (events : List StreamEvent) (e : NNTPError)
    (h : read_response .ArticleFollows events = some (.error e))
    (hne : e ≠ .ResponseCode .ArticleFollows 423) :
    retrieve_raw_article (.ok ()) events = some (.error e) := by
  unfold retrieve_raw_article
  rw [h]
  show (if e = NNTPError.ResponseCode .ArticleFollows 423 then
      some (Except.error NNTPError.ArticleUnavailable) else some (Except.error e)) =
    some (Except.error e)
  rw [if_neg hne]

/-- C4: for the ARTICLE-family commands (backed by `retrieve_article`
and `retrieve_raw_article`), a well-formed status reply with code 423
yields `ArticleUnavailable`, while any other unexpected code `C ≠ 220`
propagates as `ResponseCode { expected := 220, received := C }`. -/
theorem claim_C4_article_423 (code : Nat) (restText : List Nat) (extra : List StreamEvent)
    (hcode : 100 ≤ code ∧ code ≤ 999) (hne : code ≠ 220)
    (hrest : restText ≠ [])
    (hclean : ∀ c ∈ restText, UnicodeScalar c ∧ c ≠ 13 ∧ c ≠ 10) :
    retrieve_article (.ok ()) (byteEvents (statusBytes code restText) ++ extra) =
        some (.error (if code = 423 then .ArticleUnavailable
          else .ResponseCode .ArticleFollows (code : Int))) ∧
      retrieve_raw_article (.ok ()) (byteEvents (statusBytes code restText) ++ extra) =
        some (.error (if code = 423 then .ArticleUnavailable
          else .ResponseCode .ArticleFollows (code : Int))) := by
  have hrr := read_response_status .ArticleFollows code restText extra hcode hrest hclean
  rw [if_neg (by simp only [ResponseCode.val]; omega)] at hrr
  by_cases h423 : code = 423
  · subst h423
    norm_num at hrr ⊢
    exact ⟨retrieve_article_resp_423 _ hrr, retrieve_raw_article_resp_423 _ hrr⟩
  · simp only [if_neg h423]
    have hne423 : NNTPError.ResponseCode .ArticleFollows (code : Int) ≠
        .ResponseCode .ArticleFollows 423 := by
      intro hcon
      apply h423
      injection hcon with h1 h2
      omega
    exact ⟨retrieve_article_resp_error _ _ hrr hne423,
      retrieve_raw_article_resp_error _ _ hrr hne423⟩

theorem claim_C4_witness :
    retrieve_article (.ok ()) (byteEvents (statusBytes 423 [110, 111]) ++ []) =
        some (.error .ArticleUnavailable) ∧
      retrieve_raw_article (.ok ()) (byteEvents (statusBytes 430 [110, 111]) ++ []) =
        some (.error (.ResponseCode .ArticleFollows 430)) := by
  constructor
  · have h := (claim_C4_article_423 423 [110, 111] [] (by decide) (by decide) (by decide)
      (by decide)).1
    simpa using h
  · have h := (claim_C4_article_423 430 [110, 111] [] (by decide) (by decide) (by decide)
      (by decide)).2
    simpa using h

/-! ### C5: `is_valid_message` and the POST guard -/

theorem getD_append_right_idx (p suf : List Nat) (i : Nat) (h : i < suf.length) :
    (p ++ suf).getD (p.length + i) 0 = suf.getD i 0 := by
  rw [List.getD_eq_getElem _ 0 (by simp only [List.length_append]; omega),
    List.getD_eq_getElem _ 0 h, List.getElem_append_right (by omega)]
  congr 1
  omega

theorem is_valid_message_suffix (p : List Nat) :
    is_valid_message (p ++ [13, 10, 46, 13, 10]) = true := by
  unfold is_valid_message
  simp only [Bool.and_eq_true, decide_eq_true_eq, beq_iff_eq]
  have hl : (p ++ [13, 10, 46, 13, 10]).length = p.length + 5 := by simp
  refine ⟨by omega, ?_, ?_, ?_, ?_, ?_⟩
  · rw [hl, show p.length + 5 - 1 = p.length + 4 by omega,
      getD_append_right_idx _ _ 4 (by simp)]
    rfl
  · rw [hl, show p.length + 5 - 2 = p.length + 3 by omega,
      getD_append_right_idx _ _ 3 (by simp)]
    rfl
  · rw [hl, show p.length + 5 - 3 = p.length + 2 by omega,
      getD_append_right_idx _ _ 2 (by simp)]
    rfl
  · rw [hl, show p.length + 5 - 4 = p.length + 1 by omega,
      getD_append_right_idx _ _ 1 (by simp)]
    rfl
  · rw [hl, show p.length + 5 - 5 = p.length + 0 by omega,
      getD_append_right_idx _ _ 0 (by simp)]
    rfl

/-- The Boolean byte checks of `is_valid_message` are equivalent to the
last five bytes being `CR LF . CR LF`. -/
theorem is_valid_message_iff (message : List Nat) :
    is_valid_message message = true ↔
      5 ≤ message.length ∧
        message.drop (message.length - 5) = [13, 10, 46, 13, 10] := by
  constructor
  · intro h
    unfold is_valid_message at h
    simp only [Bool.and_eq_true, decide_eq_true_eq, beq_iff_eq] at h
    obtain ⟨h5, g1, g2, g3, g4, g5⟩ := h
    refine ⟨h5, ?_⟩
    apply List.ext_getElem
    · simp only [List.length_drop, List.length_cons, List.length_nil]
      omega
    · intro i hi1 hi2
      simp only [List.length_cons, List.length_nil] at hi2
      rw [List.getElem_drop]
      interval_cases i
      · have := g5
        rw [List.getD_eq_getElem _ 0 (by omega)] at this
        simpa [show message.length - 5 + 0 = message.length - 5 by omega] using this
      · have := g4
        rw [List.getD_eq_getElem _ 0 (by omega)] at this
        simpa [show message.length - 5 + 1 = message.length - 4 by omega] using this
      · have := g3
        rw [List.getD_eq_getElem _ 0 (by omega)] at this
        simpa [show message.length - 5 + 2 = message.length - 3 by omega] using this
      · have := g2
        rw [List.getD_eq_getElem _ 0 (by omega)] at this
        simpa [show message.length - 5 + 3 = message.length - 2 by omega] using this
      · have := g1
        rw [List.getD_eq_getElem _ 0 (by omega)] at this
        simpa [show message.length - 5 + 4 = message.length - 1 by omega] using this
  · rintro ⟨h5, hdrop⟩
    have hmsg : message = message.take (message.length - 5) ++ [13, 10, 46, 13, 10] := by
      conv_lhs => rw [← List.take_append_drop (message.length - 5) message]
      rw [hdrop]
    rw [hmsg]
    exact is_valid_message_suffix _

/-- C5: `is_valid_message m` holds iff `m` is at least five bytes long
and its last five bytes are exactly `CR LF . CR LF`; and `post` on any
message failing the check returns `InvalidMessage` without writing a
single byte to the stream (its write trace is empty). -/
theorem claim_C5_post_guard (message : List Nat) (w1 w2 : Except IoErrorKind Unit)
    (events : List StreamEvent) :
    (is_valid_message message = true ↔
      5 ≤ message.length ∧
        message.drop (message.length - 5) = [13, 10, 46, 13, 10]) ∧
      (is_valid_message message = false →
        post message w1 w2 events =
          some (.error (.InvalidMessage message invalid_message_reason), [])) := by
  refine ⟨is_valid_message_iff message, ?_⟩
  intro hinv
  unfold post
  rw [if_pos (by simp [hinv])]

theorem claim_C5_witness :
    post [104, 105] (.ok ()) (.ok ()) [] =
      some (.error (.InvalidMessage [104, 105] invalid_message_reason), []) :=
  (claim_C5_post_guard [104, 105] (.ok ()) (.ok ()) []).2 (by decide)

/-! ### C6: `Article::new_article` -/

theorem splitn2_some_of_mem {sep : Nat} :
    ∀ {l : List Nat}, sep ∈ l → ∃ p, splitn2 sep l = some p := by
  intro l
  induction l with
  | nil => intro h; simp at h
  | cons c rest ih =>
    intro h
    by_cases hc : c = sep
    · exact ⟨([], rest), by simp [splitn2, hc]⟩
    · have hm : sep ∈ rest := by
        rcases List.mem_cons.mp h with h1 | h1
        · exact absurd h1.symm hc
        · exact h1
      obtain ⟨p, hp⟩ := ih hm
      exact ⟨(c :: p.1, p.2), by simp [splitn2, hc, hp]⟩

/-- The header-insertion step performed by `new_article` for one header
line: split at the first `:`, trim CR/LF from both pieces, insert. -/
def header_step (m : List (List Nat × List Nat)) (h : List Nat) :
    List (List Nat × List Nat) :=
  match splitn2 58 h with
  | some (k, v) => hashmap_insert m (trim_crlf k) (trim_crlf v)
  | none => m

theorem new_article_loop_body (bs : List (List Nat)) :
    ∀ (headers : List (List Nat × List Nat)) (body : List (List Nat)),
      (∀ b ∈ bs, b ≠ [13, 10]) →
      new_article_loop bs headers body false = some ⟨headers, body ++ bs⟩ := by
  induction bs with
  | nil => intro headers body _; simp [new_article_loop]
  | cons b bs' ih =>
    intro headers body h
    have hb : b ≠ [13, 10] := (h b (by simp))
    rw [new_article_loop, if_neg hb, if_neg (by simp)]
    rw [ih headers (body ++ [b]) (fun x hx => h x (by simp [hx]))]
    simp

theorem new_article_loop_headers (bs : List (List Nat)) :
    ∀ (hs : List (List Nat)) (headers : List (List Nat × List Nat)),
      (∀ h ∈ hs, h ≠ [13, 10] ∧ 58 ∈ h) →
      new_article_loop (hs ++ [13, 10] :: bs) headers [] true =
        new_article_loop ([13, 10] :: bs) (hs.foldl header_step headers) [] true := by
  intro hs
  induction hs with
  | nil => intro headers _; simp
  | cons hline hs' ih =>
    intro headers h
    obtain ⟨hne, hcolon⟩ := h hline (by simp)
    obtain ⟨⟨k, v⟩, hsp⟩ := splitn2_some_of_mem hcolon
    rw [List.cons_append, new_article_loop, if_neg hne, if_pos rfl, hsp]
    show new_article_loop (hs' ++ [13, 10] :: bs)
        (hashmap_insert headers (trim_crlf k) (trim_crlf v)) [] true =
      new_article_loop ([13, 10] :: bs) (List.foldl header_step headers (hline :: hs')) [] true
    rw [ih (hashmap_insert headers (trim_crlf k) (trim_crlf v))
      (fun x hx => h x (by simp [hx]))]
    congr 1
    simp [header_step, hsp]

/-- C6 (amended): `new_article` splits its input at the first line equal
to `"\r\n"`; every earlier line (which must contain a `:`) becomes a
header entry via `header_step` — split at the first `:`, name and value
trimmed of CR/LF only, so a value like `" 1"` keeps its leading space —
and the lines after the separator are retained verbatim in order,
provided none of them equals `"\r\n"` (any line equal to `"\r\n"`,
wherever it occurs, is skipped). -/
theorem claim_C6_amended (hs bs : List (List Nat))
    (hh : ∀ h ∈ hs, h ≠ [13, 10] ∧ 58 ∈ h)
    (hb : ∀ b ∈ bs, b ≠ [13, 10]) :
    Article.new_article (hs ++ [13, 10] :: bs) =
      some ⟨hs.foldl header_step [], bs⟩ := by
  unfold Article.new_article
  rw [new_article_loop_headers bs hs [] hh]
  rw [new_article_loop, if_pos rfl]
  rw [new_article_loop_body bs _ [] hb]
  simp

theorem claim_C6_witness :
    Article.new_article [[65, 58, 32, 49, 13, 10], [66, 58, 32, 50, 13, 10], [13, 10],
        [98, 111, 100, 121, 49, 13, 10], [98, 111, 100, 121, 50, 13, 10]] =
      some ⟨[[65, 58, 32, 49, 13, 10], [66, 58, 32, 50, 13, 10]].foldl header_step [],
        [[98, 111, 100, 121, 49, 13, 10], [98, 111, 100, 121, 50, 13, 10]]⟩ := by
  exact claim_C6_amended [[65, 58, 32, 49, 13, 10], [66, 58, 32, 50, 13, 10]]
    [[98, 111, 100, 121, 49, 13, 10], [98, 111, 100, 121, 50, 13, 10]]
    (by decide) (by decide)

/-- C6 (counterexample): on the claim's own example input the code
produces header values `" 1"` and `" 2"` (code points `[32, 49]`,
`[32, 50]`) — the leading space survives because only CR and LF are
trimmed — not `"1"`/`"2"` as claimed; and a body line equal to `"\r\n"`
is dropped, not retained. -/
theorem claim_C6_counterexample :
    (Article.new_article [[65, 58, 32, 49, 13, 10], [66, 58, 32, 50, 13, 10], [13, 10],
        [98, 111, 100, 121, 49, 13, 10], [98, 111, 100, 121, 50, 13, 10]] =
      some ⟨[([65], [32, 49]), ([66], [32, 50])],
        [[98, 111, 100, 121, 49, 13, 10], [98, 111, 100, 121, 50, 13, 10]]⟩) ∧
    ([32, 49] ≠ [49] ∧ [32, 50] ≠ [50]) ∧
    (Article.new_article [[65, 58, 32, 49, 13, 10], [13, 10],
        [98, 49, 13, 10], [13, 10], [98, 50, 13, 10]] =
      some ⟨[([65], [32, 49])], [[98, 49, 13, 10], [98, 50, 13, 10]]⟩ ∧
      ([[98, 49, 13, 10], [98, 50, 13, 10]] : List (List Nat)) ≠
        [[98, 49, 13, 10], [13, 10], [98, 50, 13, 10]]) := by
  decide

/-! ### C7: the LIST round-trip -/

theorem intToStr_no_space_crlf (i : Int) : ∀ b ∈ intToStr i, b ≠ 32 ∧ b ≠ 13 ∧ b ≠ 10 := by
  intro b hb
  rcases intToStr_mem i b hb with h | h <;> omega

/-- Evaluation of `from_list_response` on a well-formed four-token line:
for in-range `high` and `low` the parses succeed and the `number` field
carries the wrapped difference `isize_wrap (high - low)`. -/
theorem from_list_response_eval (name status : List Nat) (high low : Int)
    (hn : name ≠ []) (hst : status ≠ [])
    (hnc : ∀ c ∈ name, c ≠ 32 ∧ c ≠ 13 ∧ c ≠ 10)
    (hsc : ∀ c ∈ status, c ≠ 32 ∧ c ≠ 13 ∧ c ≠ 10)
    (hhi1 : isize_min ≤ high) (hhi2 : high ≤ isize_max)
    (hlo1 : isize_min ≤ low) (hlo2 : low ≤ isize_max) :
    NewsGroup.from_list_response
        (name ++ 32 :: (intToStr high ++ 32 :: (intToStr low ++ 32 :: status))) =
      some ⟨name, high, low, isize_wrap (high - low), status⟩ := by
  obtain ⟨n0, nt, rfl⟩ := List.exists_cons_of_ne_nil hn
  rcases List.eq_nil_or_concat status with rfl | ⟨si, z, rfl⟩
  · exact absurd rfl hst
  simp only [List.concat_eq_append] at hst hsc ⊢
  have hz := hsc z (by simp)
  have hn0 := hnc n0 (by simp)
  have htrim : trim_crlf_space ((n0 :: nt) ++ 32 ::
      (intToStr high ++ 32 :: (intToStr low ++ 32 :: (si ++ [z])))) =
      (n0 :: nt) ++ 32 :: (intToStr high ++ 32 :: (intToStr low ++ 32 :: (si ++ [z]))) := by
    have hshape : (n0 :: nt) ++ 32 ::
        (intToStr high ++ 32 :: (intToStr low ++ 32 :: (si ++ [z]))) =
        n0 :: (nt ++ 32 :: (intToStr high ++ 32 :: (intToStr low ++ 32 :: si))) ++ [z] := by
      simp [List.append_assoc]
    rw [hshape]
    unfold trim_crlf_space
    exact trim_matches_of_ends _ (by simp [hn0.1, hn0.2.1, hn0.2.2])
      (by simp [hz.1, hz.2.1, hz.2.2])
  have hnos : (32 : Nat) ∉ n0 :: nt := by
    intro hm
    exact (hnc 32 hm).1 rfl
  have hnoA : (32 : Nat) ∉ intToStr high := by
    intro hm
    exact (intToStr_no_space_crlf high 32 hm).1 rfl
  have hnoB : (32 : Nat) ∉ intToStr low := by
    intro hm
    exact (intToStr_no_space_crlf low 32 hm).1 rfl
  have hnost : (32 : Nat) ∉ si ++ [z] := by
    intro hm
    exact (hsc 32 hm).1 rfl
  have hsplitc : split_char 32 ((n0 :: nt) ++ 32 ::
      (intToStr high ++ 32 :: (intToStr low ++ 32 :: (si ++ [z])))) =
      [n0 :: nt, intToStr high, intToStr low, si ++ [z]] := by
    rw [split_char_append _ hnos, split_char_append _ hnoA, split_char_append _ hnoB,
      split_char_no_sep hnost]
  have htrim2 : trim_crlf_space
      (n0 :: (nt ++ 32 :: (intToStr high ++ 32 :: (intToStr low ++ 32 :: (si ++ [z]))))) =
      n0 :: (nt ++ 32 :: (intToStr high ++ 32 :: (intToStr low ++ 32 :: (si ++ [z])))) := by
    simpa using htrim
  have hsplitc2 : split_char 32
      (n0 :: (nt ++ 32 :: (intToStr high ++ 32 :: (intToStr low ++ 32 :: (si ++ [z]))))) =
      [n0 :: nt, intToStr high, intToStr low, si ++ [z]] := by
    simpa using hsplitc
  unfold NewsGroup.from_list_response
  simp [htrim2, hsplitc2, parse_isize_intToStr high hhi1 hhi2, parse_isize_intToStr low hlo1 hlo2]

theorem isize_wrap_eq_self {i : Int} (h1 : isize_min ≤ i) (h2 : i ≤ isize_max) :
    isize_wrap i = i := by
  unfold isize_wrap
  unfold isize_min at h1
  unfold isize_max at h2
  omega

/-- C7 (amended): for every non-empty space-free `name` and `status`
(also free of CR/LF) and all integers `high` and `low` in the `isize`
range whose difference `high - low` also fits in `isize`,
`from_list_response "name high low status"` yields a `NewsGroup` with
exactly those four fields and `number = high - low` (a signed value,
negative when `high < low`).  When the difference overflows `isize` the
stored `number` is the wrapped value instead (see the counterexample). -/
theorem claim_C7_amended (name status : List Nat) (high low : Int)
    (hn : name ≠ []) (hst : status ≠ [])
    (hnc : ∀ c ∈ name, c ≠ 32 ∧ c ≠ 13 ∧ c ≠ 10)
    (hsc : ∀ c ∈ status, c ≠ 32 ∧ c ≠ 13 ∧ c ≠ 10)
    (hhi1 : isize_min ≤ high) (hhi2 : high ≤ isize_max)
    (hlo1 : isize_min ≤ low) (hlo2 : low ≤ isize_max)
    (hd1 : isize_min ≤ high - low) (hd2 : high - low ≤ isize_max) :
    NewsGroup.from_list_response
        (name ++ 32 :: (intToStr high ++ 32 :: (intToStr low ++ 32 :: status))) =
      some ⟨name, high, low, high - low, status⟩ := by
  rw [from_list_response_eval name status high low hn hst hnc hsc hhi1 hhi2 hlo1 hlo2,
    isize_wrap_eq_self hd1 hd2]

theorem claim_C7_witness :
    NewsGroup.from_list_response
        ([109] ++ 32 :: (intToStr (-3) ++ 32 :: (intToStr 5 ++ 32 :: [121]))) =
      some ⟨[109], -3, 5, -8, [121]⟩ := by
  have h := claim_C7_amended [109] [121] (-3) 5
    (by decide) (by decide) (by decide) (by decide)
    (by decide) (by decide) (by decide) (by decide) (by decide) (by decide)
  simpa using h

theorem isize_wrap_overflow :
    isize_wrap 9223372036854775808 = -9223372036854775808 := by
  decide

/-- C7 (counterexample): with `high = 9223372036854775807` (`isize::MAX`)
and `low = -1` the stored `number` is the wrapped value
`-9223372036854775808` (release-build `isize` wrapping of
`high - low = 2^63`; a debug build panics), not the mathematical
difference the claim promises. -/
theorem claim_C7_counterexample :
    NewsGroup.from_list_response
        ([109] ++ 32 :: (intToStr 9223372036854775807 ++ 32 ::
          (intToStr (-1) ++ 32 :: [121]))) =
        some ⟨[109], 9223372036854775807, -1, -9223372036854775808, [121]⟩ ∧
      (-9223372036854775808 : Int) ≠ 9223372036854775807 - (-1) := by
  constructor
  · rw [from_list_response_eval [109] [121] 9223372036854775807 (-1)
      (by decide) (by decide) (by decide) (by decide)
      (by decide) (by decide) (by decide) (by decide),
      show (9223372036854775807 - (-1) : Int) = 9223372036854775808 from by decide,
      isize_wrap_overflow]
  · decide

/-! ### C8, C9, C10 -/

/-- C8 (code bug): at premature EOF `TcpStream::read` returns `Ok(0)`,
and the source (nntp.rs lines 624-634 and 695-705) ignores the returned
count and pushes the stale byte of its freshly zeroed 1-byte buffer.
On the stream `"20"`-then-EOF the buffer never satisfies the exit
condition, so the loop spins forever pushing `0x00` (modelled as
`none`); on `"a\r"`-then-EOF the loop exits *successfully* with the
truncated line plus a spurious trailing NUL.  No error value is ever
produced at EOF, so — contrary to the claim — stream exhaustion is
never surfaced as an error, let alone one that `check_network_error`
classifies as a network error. -/
theorem claim_C8_eof_no_error :
    read_line_loop (byteEvents [50, 48]) [] = none ∧
      read_line_loop (byteEvents [97, 13]) [] = some (.ok ([97, 13, 0], [])) := by
  decide

/-- Shared evaluation for C9: after a successful 220 status line, a read
error of kind `k` inside the article's multi-line payload is wrapped by
`errors::response_error_or_network` — the helper `read_multiline_response`
uses for all its callers — not by `errors::article_error_or_network`. -/
theorem retrieve_article_payload_read_err (k : IoErrorKind) (tail : List StreamEvent) :
    retrieve_article (.ok ())
        (byteEvents (statusBytes 220 [111, 107]) ++ (.readErr k :: tail)) =
      some (.error (response_error_or_network k)) := by
  have hrr := read_response_status .ArticleFollows 220 [111, 107] (.readErr k :: tail)
    (by decide) (by decide) (by decide)
  rw [if_pos (by decide)] at hrr
  unfold retrieve_article
  rw [hrr]
  show (match read_multiline_response (.readErr k :: tail) with
    | none => none
    | some (Except.ok lines) => Option.map Except.ok (Article.new_article lines)
    | some (Except.error e) => some (Except.error e)) =
    some (Except.error (response_error_or_network k))
  rw [read_multiline_response, read_multiline_loop,
    read_line_loop_err k tail (Or.inl (by simp))]

/-- C9 (amended): a read error of kind `k` occurring while reading an
article's multi-line payload (after the 220 status line) is wrapped by
`response_error_or_network`: network kinds surface as `Io k`, and
non-network kinds surface as `FailedReadingResponse k` — not as
`FailedReadingArticle`, which the code reserves for write errors of the
ARTICLE command. -/
theorem claim_C9_amended (k : IoErrorKind) (tail : List StreamEvent) :
    retrieve_article (.ok ())
        (byteEvents (statusBytes 220 [111, 107]) ++ (.readErr k :: tail)) =
      some (.error (if check_io_network_error k then .Io k
        else .FailedReadingResponse k)) := by
  rw [retrieve_article_payload_read_err k tail]
  rfl

/-- C9 (counterexample): a non-network read error (`InvalidData`) in the
article payload position surfaces as `FailedReadingResponse`, not as
`FailedReadingArticle` as the claim states. -/
theorem claim_C9_counterexample :
    retrieve_article (.ok ())
        (byteEvents (statusBytes 220 [111, 107]) ++ [.readErr .InvalidData]) =
        some (.error (.FailedReadingResponse .InvalidData)) ∧
      NNTPError.FailedReadingResponse .InvalidData ≠
        .FailedReadingArticle .InvalidData := by
  constructor
  · rw [retrieve_article_payload_read_err .InvalidData []]
    rfl
  · decide

/-- C10: malformed listing lines make the `NewsGroup` constructors panic
(modelled by `none`): `"foo"` has fewer than four space-separated
tokens, and `"zz"` fails the integer parse; consequently `list` and
`group` are partial on such server lines (they also evaluate to `none`
rather than an error value). -/
theorem claim_C10_parse_panics :
    NewsGroup.from_list_response [102, 111, 111] = none ∧
      NewsGroup.from_group_response [122, 122] = none ∧
      list (.ok ()) (byteEvents (statusBytes 215 [111, 107]) ++
        byteEvents (payloadBytes [[102, 111, 111, 13, 10]])) = none ∧
      group (.ok ()) (byteEvents [50, 49, 49, 32, 122, 122, 13, 10]) = none := by
  refine ⟨by decide, by decide, ?_, by decide⟩
  have hrr := read_response_status .InformationFollows 215 [111, 107]
    (byteEvents (payloadBytes [[102, 111, 111, 13, 10]])) (by decide) (by decide) (by decide)
  rw [if_pos (by decide)] at hrr
  unfold list
  rw [hrr]
  show (match read_multiline_response (byteEvents (payloadBytes [[102, 111, 111, 13, 10]])) with
    | none => none
    | some (Except.ok lines) =>
        Option.map Except.ok (List.mapM NewsGroup.from_list_response lines)
    | some (Except.error e) => some (Except.error e)) = none
  rw [read_multiline_response_payload [[102, 111, 111, 13, 10]] (by
    intro l hl
    simp only [List.mem_cons, List.not_mem_nil, or_false] at hl
    subst hl
    exact ⟨by decide, ⟨[102, 111, 111], rfl, by decide⟩, by decide, by decide⟩)]
  decide
